import Mathlib

/-!
Verification of the streaming response pipeline and conversational
continuation engine of the deepcli chat client.

The development shallowly embeds the relevant Rust source:
  - src/api.rs, call_api_with_history_stream: the SSE chunk decoder
    (byte buffer, line framing, per-line JSON handling, the [DONE]
    terminal event, and the unfold-based stream adapter), including a
    model of serde_json parsing into a JSON value tree and the lossy
    UTF-8 decoding performed by String::from_utf8_lossy.
  - src/main.rs: token estimation (estimate_tokens), the summarization
    trigger and the history replacement after summarization, the
    stream-consumption loop of a single user turn, the truncation
    heuristic, and the capped automatic continuation loop.

Bytes are modelled as Nat, chunk streams as lists of byte lists, and
server responses for the controller as oracles (lists of stream items
or call results). Machine loops are modelled either structurally or
with an explicit fuel argument that provably exceeds the recursion
depth, so that every definition evaluates by kernel reduction.
-/

namespace DeepCli

/-- A decoded stream event: a text delta plus an optional finish reason.
Mirrors the Rust item type (String, Option<String>). -/
abbrev Event := String × Option String

/-! ## Lossy UTF-8 decoding (String::from_utf8_lossy)

Decodes a byte list into characters, replacing each maximal invalid
subpart by U+FFFD, following the substitution-of-maximal-subparts rule
used by the Rust standard library. -/

/-- Is a byte a valid UTF-8 continuation byte. -/
def isCont (b : Nat) : Bool := 0x80 ≤ b && b ≤ 0xBF

/-- The U+FFFD replacement character. -/
def replChar : Char := Char.ofNat 0xFFFD

/-- Scalar value of a two-byte UTF-8 sequence. -/
def char2 (b1 b2 : Nat) : Char := Char.ofNat ((b1 - 0xC0) * 64 + (b2 - 0x80))

/-- Scalar value of a three-byte UTF-8 sequence. -/
def char3 (b1 b2 b3 : Nat) : Char :=
  Char.ofNat ((b1 - 0xE0) * 4096 + (b2 - 0x80) * 64 + (b3 - 0x80))

/-- Scalar value of a four-byte UTF-8 sequence. -/
def char4 (b1 b2 b3 b4 : Nat) : Char :=
  Char.ofNat ((b1 - 0xF0) * 262144 + (b2 - 0x80) * 4096 + (b3 - 0x80) * 64 + (b4 - 0x80))

/-- Is the second byte of a three-byte sequence valid for lead byte b1. -/
def validB2of3 (b1 b2 : Nat) : Bool :=
  if b1 = 0xE0 then 0xA0 ≤ b2 && b2 ≤ 0xBF
  else if b1 = 0xED then 0x80 ≤ b2 && b2 ≤ 0x9F
  else isCont b2

/-- Is the second byte of a four-byte sequence valid for lead byte b1. -/
def validB2of4 (b1 b2 : Nat) : Bool :=
  if b1 = 0xF0 then 0x90 ≤ b2 && b2 ≤ 0xBF
  else if b1 = 0xF4 then 0x80 ≤ b2 && b2 ≤ 0x8F
  else isCont b2

/-- Lossy UTF-8 decoding, with a fuel argument strictly exceeding the
byte count; every step consumes at least one byte, so the fuel supplied
by lossyDecode never runs out. -/
def lossyAux : Nat → List Nat → List Char
  | 0, _ => []
  | fuel + 1, bs =>
    match bs with
    | [] => []
    | b1 :: rest =>
      if b1 < 0x80 then Char.ofNat b1 :: lossyAux fuel rest
      else if 0xC2 ≤ b1 && b1 ≤ 0xDF then
        match rest with
        | [] => [replChar]
        | b2 :: rest2 =>
          if isCont b2 then char2 b1 b2 :: lossyAux fuel rest2
          else replChar :: lossyAux fuel (b2 :: rest2)
      else if 0xE0 ≤ b1 && b1 ≤ 0xEF then
        match rest with
        | [] => [replChar]
        | b2 :: rest2 =>
          if validB2of3 b1 b2 then
            match rest2 with
            | [] => [replChar]
            | b3 :: rest3 =>
              if isCont b3 then char3 b1 b2 b3 :: lossyAux fuel rest3
              else replChar :: lossyAux fuel (b3 :: rest3)
          else replChar :: lossyAux fuel (b2 :: rest2)
      else if 0xF0 ≤ b1 && b1 ≤ 0xF4 then
        match rest with
        | [] => [replChar]
        | b2 :: rest2 =>
          if validB2of4 b1 b2 then
            match rest2 with
            | [] => [replChar]
            | b3 :: rest3 =>
              if isCont b3 then
                match rest3 with
                | [] => [replChar]
                | b4 :: rest4 =>
                  if isCont b4 then char4 b1 b2 b3 b4 :: lossyAux fuel rest4
                  else replChar :: lossyAux fuel (b4 :: rest4)
              else replChar :: lossyAux fuel (b3 :: rest3)
          else replChar :: lossyAux fuel (b2 :: rest2)
      else replChar :: lossyAux fuel rest

/-- Lossy UTF-8 decoding of a byte list (String::from_utf8_lossy). -/
def lossyDecode (bs : List Nat) : List Char := lossyAux (bs.length + 1) bs

/-! ## Trimming (str::trim) -/

/-- Unicode White_Space test used by char::is_whitespace. -/
def rustWs (c : Char) : Bool :=
  c.toNat = 0x9 || c.toNat = 0xA || c.toNat = 0xB || c.toNat = 0xC || c.toNat = 0xD ||
  c.toNat = 0x20 || c.toNat = 0x85 || c.toNat = 0xA0 || c.toNat = 0x1680 ||
  (0x2000 ≤ c.toNat && c.toNat ≤ 0x200A) ||
  c.toNat = 0x2028 || c.toNat = 0x2029 || c.toNat = 0x202F || c.toNat = 0x205F ||
  c.toNat = 0x3000

/-- str::trim on a character list. -/
def trimChars (l : List Char) : List Char :=
  ((l.dropWhile rustWs).reverse.dropWhile rustWs).reverse

/-- str::trim on a String. -/
def rustTrim (s : String) : String := String.mk (trimChars s.data)

/-! ## JSON values and serde_json parsing

JsonVal models serde_json::Value. Numbers are kept as their raw
lexeme: no claim inspects numeric values, only structure, strings and
presence of fields, and this avoids irrelevant float semantics. -/

inductive JsonVal where
  | null
  | bool (b : Bool)
  | num (raw : String)
  | str (s : String)
  | arr (items : List JsonVal)
  | obj (fields : List (String × JsonVal))
  deriving Repr

/-- JSON whitespace accepted by serde_json between tokens. -/
def jsonWsChar (c : Char) : Bool := c = ' ' || c = '\t' || c = '\n' || c = '\r'

/-- Skip leading JSON whitespace. -/
def skipWs : List Char → List Char
  | [] => []
  | c :: cs => if jsonWsChar c then skipWs cs else c :: cs

/-- Value of one hex digit. -/
def hexVal (c : Char) : Option Nat :=
  if '0' ≤ c ∧ c ≤ '9' then some (c.toNat - 48)
  else if 'a' ≤ c ∧ c ≤ 'f' then some (c.toNat - 87)
  else if 'A' ≤ c ∧ c ≤ 'F' then some (c.toNat - 55)
  else none

/-- Parse the body of a JSON string literal, after the opening quote.
Returns the decoded characters and the input after the closing quote. -/
def parseStrBody : List Char → Option (List Char × List Char)
  | [] => none
  | c :: cs =>
    if c = '"' then some ([], cs)
    else if c = '\\' then
      match cs with
      | [] => none
      | e :: cs2 =>
        if e = '"' then (parseStrBody cs2).map (fun p => ('"' :: p.1, p.2))
        else if e = '\\' then (parseStrBody cs2).map (fun p => ('\\' :: p.1, p.2))
        else if e = '/' then (parseStrBody cs2).map (fun p => ('/' :: p.1, p.2))
        else if e = 'b' then (parseStrBody cs2).map (fun p => ('\x08' :: p.1, p.2))
        else if e = 'f' then (parseStrBody cs2).map (fun p => ('\x0C' :: p.1, p.2))
        else if e = 'n' then (parseStrBody cs2).map (fun p => ('\n' :: p.1, p.2))
        else if e = 'r' then (parseStrBody cs2).map (fun p => ('\r' :: p.1, p.2))
        else if e = 't' then (parseStrBody cs2).map (fun p => ('\t' :: p.1, p.2))
        else if e = 'u' then
          match cs2 with
          | h1 :: h2 :: h3 :: h4 :: cs3 =>
            match hexVal h1, hexVal h2, hexVal h3, hexVal h4 with
            | some a, some b, some c4, some d =>
              (parseStrBody cs3).map
                (fun p => (Char.ofNat (4096 * a + 256 * b + 16 * c4 + d) :: p.1, p.2))
            | _, _, _, _ => none
          | _ => none
        else none
    else if c.toNat < 32 then none
    else (parseStrBody cs).map (fun p => (c :: p.1, p.2))

/-- Is the character an ASCII digit. -/
def isDigitCh (c : Char) : Bool := '0' ≤ c && c ≤ '9'

/-- Longest digit run at the head of the input. -/
def spanDigits : List Char → List Char × List Char
  | [] => ([], [])
  | c :: cs =>
    if isDigitCh c then
      let p := spanDigits cs
      (c :: p.1, p.2)
    else ([], c :: cs)

/-- Integer part of a JSON number (no leading zeros, as in serde_json). -/
def parseIntPart : List Char → Option (List Char × List Char)
  | [] => none
  | c :: cs =>
    if c = '0' then some (['0'], cs)
    else if isDigitCh c then
      let p := spanDigits cs
      some (c :: p.1, p.2)
    else none

/-- Optional fraction part of a JSON number. -/
def parseFrac : List Char → Option (List Char × List Char)
  | '.' :: cs =>
    match spanDigits cs with
    | ([], _) => none
    | (ds, rest) => some ('.' :: ds, rest)
  | cs => some ([], cs)

/-- Optional exponent part of a JSON number. -/
def parseExp : List Char → Option (List Char × List Char)
  | [] => some ([], [])
  | c :: cs =>
    if c = 'e' ∨ c = 'E' then
      match cs with
      | [] => none
      | s :: cs2 =>
        if s = '+' ∨ s = '-' then
          match spanDigits cs2 with
          | ([], _) => none
          | (ds, r) => some (c :: s :: ds, r)
        else
          match spanDigits cs with
          | ([], _) => none
          | (ds, r) => some (c :: ds, r)
    else some ([], c :: cs)

/-- A JSON number: sign, integer part, optional fraction and exponent. -/
def parseNum (cs : List Char) : Option (List Char × List Char) :=
  let sp := match cs with
    | '-' :: t => (['-'], t)
    | _ => (([] : List Char), cs)
  match parseIntPart sp.2 with
  | none => none
  | some (ip, cs2) =>
    match parseFrac cs2 with
    | none => none
    | some (fp, cs3) =>
      match parseExp cs3 with
      | none => none
      | some (ep, cs4) => some (sp.1 ++ ip ++ fp ++ ep, cs4)

mutual

/-- Parse one JSON value. The fuel strictly bounds the recursion depth;
fromStrL supplies more fuel than any input can consume. -/
def parseVal : Nat → List Char → Option (JsonVal × List Char)
  | 0, _ => none
  | fuel + 1, cs =>
    match skipWs cs with
    | [] => none
    | c :: rest =>
      if c = '"' then (parseStrBody rest).map (fun p => (JsonVal.str (String.mk p.1), p.2))
      else if c = '\x7b' then
        match skipWs rest with
        | '\x7d' :: rest2 => some (JsonVal.obj [], rest2)
        | _ => (parseObjItems fuel rest).map (fun p => (JsonVal.obj p.1, p.2))
      else if c = '[' then
        match skipWs rest with
        | ']' :: rest2 => some (JsonVal.arr [], rest2)
        | _ => (parseArrItems fuel rest).map (fun p => (JsonVal.arr p.1, p.2))
      else if c = 't' then
        match rest with
        | 'r' :: 'u' :: 'e' :: r => some (JsonVal.bool true, r)
        | _ => none
      else if c = 'f' then
        match rest with
        | 'a' :: 'l' :: 's' :: 'e' :: r => some (JsonVal.bool false, r)
        | _ => none
      else if c = 'n' then
        match rest with
        | 'u' :: 'l' :: 'l' :: r => some (JsonVal.null, r)
        | _ => none
      else if c = '-' ∨ isDigitCh c then
        (parseNum (c :: rest)).map (fun p => (JsonVal.num (String.mk p.1), p.2))
      else none

/-- Parse the comma-separated items of a nonempty JSON array, up to and
including the closing bracket. -/
def parseArrItems : Nat → List Char → Option (List JsonVal × List Char)
  | 0, _ => none
  | fuel + 1, cs =>
    match parseVal fuel cs with
    | none => none
    | some (v, rest) =>
      match skipWs rest with
      | ',' :: rest2 => (parseArrItems fuel rest2).map (fun p => (v :: p.1, p.2))
      | ']' :: rest2 => some ([v], rest2)
      | _ => none

/-- Parse the members of a nonempty JSON object, up to and including the
closing brace. -/
def parseObjItems : Nat → List Char → Option (List (String × JsonVal) × List Char)
  | 0, _ => none
  | fuel + 1, cs =>
    match skipWs cs with
    | '"' :: rest =>
      match parseStrBody rest with
      | none => none
      | some (key, rest2) =>
        match skipWs rest2 with
        | ':' :: rest3 =>
          match parseVal fuel rest3 with
          | none => none
          | some (v, rest4) =>
            match skipWs rest4 with
            | ',' :: rest5 =>
              (parseObjItems fuel rest5).map (fun p => ((String.mk key, v) :: p.1, p.2))
            | '\x7d' :: rest5 => some ([(String.mk key, v)], rest5)
            | _ => none
        | _ => none
    | _ => none

end

/-- serde_json::from_str on a character list: parse one value and require
that only whitespace remains. -/
def fromStrL (l : List Char) : Option JsonVal :=
  match parseVal (2 * l.length + 2) l with
  | none => none
  | some (v, rest) => if skipWs rest = [] then some v else none

/-- serde_json::from_str on a String. -/
def fromStr (s : String) : Option JsonVal := fromStrL s.data

/-- Field lookup on an object (serde_json Value::get with a string key);
on duplicate keys the later entry wins, as with map insertion. Non-objects
yield none. -/
def lookupField : List (String × JsonVal) → String → Option JsonVal
  | [], _ => none
  | (k, v) :: rest, key =>
    match lookupField rest key with
    | some r => some r
    | none => if k = key then some v else none

/-- Value::get with a string key. -/
def jget : JsonVal → String → Option JsonVal
  | JsonVal.obj fields, key => lookupField fields key
  | _, _ => none

/-- Value::get with a numeric index (arrays only). -/
def jidx : JsonVal → Nat → Option JsonVal
  | JsonVal.arr items, i => items[i]?
  | _, _ => none

/-- Value::as_str. -/
def jasStr : JsonVal → Option String
  | JsonVal.str s => some s
  | _ => none

/-! ## Per-line event extraction (src/api.rs lines 178-216) -/

/-- Event extraction from one parsed data-line payload, mirroring the
nested if-let chain of the source: read choices[0], read finish_reason,
prefer delta.content when it is a string, fall back to message.content
when it is a string, otherwise forward a bare finish_reason, otherwise
produce nothing. -/
def extractEvent (j : JsonVal) : Option Event :=
  match jget j "choices" with
  | none => none
  | some choices =>
    match jidx choices 0 with
    | none => none
    | some choice =>
      let finishReason := (jget choice "finish_reason").bind jasStr
      match ((jget choice "delta").bind (fun d => jget d "content")).bind jasStr with
      | some s => some (s, finishReason)
      | none =>
        match ((jget choice "message").bind (fun m => jget m "content")).bind jasStr with
        | some s => some (s, finishReason)
        | none =>
          if finishReason.isSome then some ("", finishReason) else none

/-! ## Line handling (src/api.rs lines 163-218) -/

/-- Outcome of handling one trimmed, decoded line. -/
inductive LineOut where
  | skip
  | emit (t : String) (r : Option String)
  | halt
  deriving DecidableEq, Repr

/-- The literal marker data-colon-space that starts an SSE data line. -/
def dataMarker : List Char := ['d', 'a', 't', 'a', ':', ' ']

/-- The payload [DONE] marking stream termination. -/
def doneTag : List Char := ['[', 'D', 'O', 'N', 'E', ']']

/-- str::strip_prefix with the data marker. -/
def stripMarker (l : List Char) : Option (List Char) :=
  if l.take 6 = dataMarker then some (l.drop 6) else none

/-- Handle one decoded and trimmed line: drop empty lines and lines
without the data marker, halt on [DONE], skip malformed JSON, otherwise
extract an event if the payload yields one. -/
def handleLine (l : List Char) : LineOut :=
  if l = [] then LineOut.skip
  else
    match stripMarker l with
    | none => LineOut.skip
    | some payload =>
      if payload = doneTag then LineOut.halt
      else
        match fromStrL payload with
        | none => LineOut.skip
        | some j =>
          match extractEvent j with
          | some (t, r) => LineOut.emit t r
          | none => LineOut.skip

/-! ## Buffer framing (src/api.rs lines 163-165) -/

/-- Split off the first newline-terminated line of the buffer, inclusive
of the newline byte, mirroring position plus drain. -/
def takeLine : List Nat → Option (List Nat × List Nat)
  | [] => none
  | b :: bs =>
    if b = 10 then some ([10], bs)
    else
      match takeLine bs with
      | some (l, r) => some (b :: l, r)
      | none => none

/-- Decoded, trimmed text of one raw line. -/
def lineStr (l : List Nat) : List Char := trimChars (lossyDecode l)

/-- One buffer scan: drain complete lines until one of them produces an
event or the buffer holds no full line. The fuel argument strictly
exceeds the buffer length, so it never runs out; scanBuffer supplies it.
Returns the emitted event (if any), the remaining buffer, and whether
the [DONE] terminal was reached. -/
def scanAux : Nat → List Nat → Option Event × List Nat × Bool
  | 0, buf => (none, buf, false)
  | fuel + 1, buf =>
    match takeLine buf with
    | none => (none, buf, false)
    | some (l, r) =>
      match handleLine (lineStr l) with
      | LineOut.skip => scanAux fuel r
      | LineOut.emit t rr => (some (t, rr), r, false)
      | LineOut.halt => (some ("", some "length"), r, true)

/-- Scan the buffer for the next event, as the inner while loop of the
unfold closure does after appending a chunk. -/
def scanBuffer (buf : List Nat) : Option Event × List Nat × Bool :=
  scanAux (buf.length + 1) buf

/-- The full decoder run over a list of byte chunks, starting from a
given buffer: the event list produced by repeatedly polling the unfold
stream, together with the final finished flag. After emitting an event
the closure returns, and the next poll first awaits the next chunk
before rescanning the buffer; when the upstream ends, any buffered
complete lines are not processed. After the [DONE] terminal the next
poll returns immediately. -/
def decodeRun : List (List Nat) → List Nat → List Event × Bool
  | [], _ => ([], false)
  | c :: cs, buf =>
    match scanBuffer (buf ++ c) with
    | (some e, _, true) => ([e], true)
    | (some e, b, false) =>
      let p := decodeRun cs b
      (e :: p.1, p.2)
    | (none, b, _) => decodeRun cs b

/-- Line-by-line semantics of a whole byte transcript: process every
complete line in order, stopping at the [DONE] terminal; a trailing
partial line produces nothing. Used as the canonical decode against
which chunked runs are compared. -/
def linesAux : Nat → List Nat → List Event × Bool
  | 0, _ => ([], false)
  | fuel + 1, bs =>
    match takeLine bs with
    | none => ([], false)
    | some (l, r) =>
      match handleLine (lineStr l) with
      | LineOut.skip => linesAux fuel r
      | LineOut.emit t rr => ((t, rr) :: (linesAux fuel r).1, (linesAux fuel r).2)
      | LineOut.halt => ([("", some "length")], true)

/-- Line-by-line decode of a byte transcript. -/
def linesDecode (bs : List Nat) : List Event × Bool := linesAux (bs.length + 1) bs

/-- The number of newline bytes in a chunk. -/
def count10 (l : List Nat) : Nat := List.count 10 l

/-! ## UTF-8 encoding, for concrete transcripts -/

/-- Standard UTF-8 encoding of one scalar value. -/
def utf8EncodeChar (c : Char) : List Nat :=
  let n := c.toNat
  if n < 0x80 then [n]
  else if n < 0x800 then [0xC0 + n / 64, 0x80 + n % 64]
  else if n < 0x10000 then [0xE0 + n / 4096, 0x80 + (n / 64) % 64, 0x80 + n % 64]
  else [0xF0 + n / 262144, 0x80 + (n / 4096) % 64, 0x80 + (n / 64) % 64, 0x80 + n % 64]

/-- UTF-8 bytes of a string. -/
def utf8Bytes (s : String) : List Nat := (s.data.map utf8EncodeChar).flatten

/-! ## Conversation state (src/api.rs message types, src/main.rs) -/

/-- One typed part of a multimodal message (api::Content). -/
inductive MMContent where
  | text (content_type : String) (text : String)
  | image (content_type : String) (image_url : String)
  deriving DecidableEq, Repr

/-- A conversational message (api::Message). -/
inductive Message where
  | simple (role : String) (content : String)
  | multiModal (role : String) (content : List MMContent)
  deriving DecidableEq, Repr

/-- estimate_tokens: one token per four characters, rounded down, plus
one; chars().count() counts scalar values, not bytes. -/
def estimate_tokens (text : String) : Nat := text.length / 4 + 1

/-- Token contribution of one multimodal part: text is estimated, images
contribute nothing. -/
def contentTokens : MMContent → Nat
  | MMContent.text _ t => estimate_tokens t
  | MMContent.image _ _ => 0

/-- Token contribution of one message. -/
def messageTokens : Message → Nat
  | Message.simple _ content => estimate_tokens content
  | Message.multiModal _ content => (content.map contentTokens).sum

/-- The implicit system preamble prepended to every chat request. -/
def systemPreamble : Message := Message.simple "system" "You are a helpful assistant."

/-- The message list sent with a chat request: the system preamble
followed by the history. -/
def buildMessages (history : List Message) : List Message := systemPreamble :: history

/-- Total estimated tokens of a message list. -/
def totalTokens (msgs : List Message) : Nat := (msgs.map messageTokens).sum

/-- get_model_max_input_tokens: 65536 for every model. -/
def get_model_max_input_tokens (_model : String) : Nat := 65536

/-- The summarization trigger: the estimate over the built message list
strictly exceeds the model input budget. -/
def summarizeTriggered (model : String) (history : List Message) : Bool :=
  totalTokens (buildMessages history) > get_model_max_input_tokens model

/-! ## Stream consumption within one turn (src/main.rs lines 186-204) -/

/-- One item of a response stream as seen by the controller: a decoded
event or a transport error. -/
inductive StreamItem where
  | ok (text : String) (reason : Option String)
  | err
  deriving DecidableEq, Repr

/-- Consume stream items as the while-let loop does: append each text
delta to the reply, overwrite the last reason whenever a reason is
present, and stop at the first error. Returns the reply, the last
captured reason, and whether an error was reported. -/
def consumeStream : List StreamItem → String → Option String → String × Option String × Bool
  | [], reply, last => (reply, last, false)
  | StreamItem.ok s r :: rest, reply, last =>
    consumeStream rest (reply ++ s) (match r with | some x => some x | none => last)
  | StreamItem.err :: _, reply, last => (reply, last, true)

/-! ## Truncation heuristic and continuation (src/main.rs lines 218-254) -/

/-- str::ends_with for a string pattern (byte suffix, equivalently char
suffix for valid UTF-8). -/
def endsWithStr (s p : String) : Bool := p.data.isSuffixOf s.data

/-- UTF-8 byte size of one character. -/
def utf8CharSize (c : Char) : Nat :=
  if c.toNat < 0x80 then 1
  else if c.toNat < 0x800 then 2
  else if c.toNat < 0x10000 then 3
  else 4

/-- str::len of a String: its UTF-8 byte count. -/
def utf8Len (s : String) : Nat := (s.data.map utf8CharSize).sum

/-- The truncation heuristic applied to the trimmed reply when no finish
reason was captured; trimmed.len() in the source is the byte length. -/
def truncHeuristic (trimmed : String) : Bool :=
  endsWithStr trimmed "（" || endsWithStr trimmed "、" || endsWithStr trimmed "，" ||
  endsWithStr trimmed "：" || endsWithStr trimmed "-" || endsWithStr trimmed "**" ||
  (decide (utf8Len trimmed > 100) && !endsWithStr trimmed "。" &&
    !endsWithStr trimmed "！" && !endsWithStr trimmed "？")

/-- The continuation decision: with an explicit finish reason, continue
iff it equals length; otherwise apply the heuristic to the trimmed
reply. -/
def shouldContinue (last : Option String) (reply : String) : Bool :=
  match last with
  | some reason => reason == "length"
  | none => truncHeuristic (rustTrim reply)

/-- MAX_AUTO_CONTINUE from src/main.rs. -/
def MAX_AUTO_CONTINUE : Nat := 5

/-- The synthetic follow-up user message appended when continuing. -/
def continueMsg : Message := Message.simple "user" "请继续"

/-- Outcome of one chat-completion stream call: the request itself
failed, or it produced a stream of items. -/
inductive CallResult where
  | failed
  | streamed (items : List StreamItem)
  deriving DecidableEq, Repr

/-- The automatic continuation loop of one user turn, driven by an
oracle of successive call results. On a failed request the loop breaks
without touching history; otherwise the (possibly partial) reply is
appended as an assistant message, and when the continuation decision
fires below the cap, the synthetic follow-up is appended and the loop
re-requests. Returns the final history and the continuation count. -/
def innerLoop : List CallResult → List Message → Nat → List Message × Nat
  | [], history, count => (history, count)
  | CallResult.failed :: _, history, count => (history, count)
  | CallResult.streamed items :: rest, history, count =>
    let r := consumeStream items "" none
    let history2 := history ++ [Message.simple "assistant" r.1]
    if shouldContinue r.2.1 r.1 && decide (count < MAX_AUTO_CONTINUE) then
      innerLoop rest (history2 ++ [continueMsg]) (count + 1)
    else (history2, count)

/-! ## Summarization phase (src/main.rs lines 92-166) -/

/-- Outcome of the summarization request: it could not be issued, or it
produced a stream of items. -/
inductive SummaryCall where
  | requestError
  | streamOk (items : List StreamItem)
  deriving DecidableEq, Repr

/-- The summary text collected from the summarization call: empty when
the request failed, otherwise the deltas accumulated up to the first
stream error. -/
def summaryText : SummaryCall → String
  | SummaryCall.requestError => ""
  | SummaryCall.streamOk items => (consumeStream items "" none).1

/-- Whether a summarization error message was printed. -/
def summaryErrored : SummaryCall → Bool
  | SummaryCall.requestError => true
  | SummaryCall.streamOk items => (consumeStream items "" none).2.2

/-- The budget check and summarization phase of one turn: when the
token estimate exceeds the budget, the history is cleared and replaced
by a single synthetic user message carrying the summary marker and the
collected summary text; otherwise the history is untouched. The second
component records whether a summarization error was reported. -/
def budgetPhase (model : String) (history : List Message) (call : SummaryCall) :
    List Message × Bool :=
  if summarizeTriggered model history then
    ([Message.simple "user" ("[历史摘要] " ++ summaryText call)], summaryErrored call)
  else (history, false)

/-! ## Spec-side renderings, for refinement statements

These definitions follow the wording of the specification claims; the
theorems below compare them with the embeddings above, which follow the
source. -/

/-- The dispatch over a parsed data-line payload with choices[0]
present, as the spec words it: if delta.content is a string emit it,
otherwise if message.content is a string emit it, otherwise emit a bare
finish_reason if present, otherwise nothing. -/
def claimedDispatch (choice : JsonVal) : Option Event :=
  let fr := (jget choice "finish_reason").bind jasStr
  match (jget choice "delta").bind (fun d => jget d "content") with
  | some (JsonVal.str s) => some (s, fr)
  | _ =>
    match (jget choice "message").bind (fun m => jget m "content") with
    | some (JsonVal.str s) => some (s, fr)
    | _ => if fr.isSome then some ("", fr) else none

/-- View an optional event as a line outcome. -/
def eventOut : Option Event → LineOut
  | some (t, r) => LineOut.emit t r
  | none => LineOut.skip

/-- The truncation heuristic as the claim words it, with the length
clause measured in characters. -/
def claimHeuristicChars (trimmed : String) : Bool :=
  endsWithStr trimmed "（" || endsWithStr trimmed "、" || endsWithStr trimmed "，" ||
  endsWithStr trimmed "：" || endsWithStr trimmed "-" || endsWithStr trimmed "**" ||
  (decide (trimmed.length > 100) && !endsWithStr trimmed "。" &&
    !endsWithStr trimmed "！" && !endsWithStr trimmed "？")

/-- The truncation heuristic with the length clause measured in UTF-8
bytes, matching trimmed.len() in the source. -/
def claimHeuristicBytes (trimmed : String) : Bool :=
  endsWithStr trimmed "（" || endsWithStr trimmed "、" || endsWithStr trimmed "，" ||
  endsWithStr trimmed "：" || endsWithStr trimmed "-" || endsWithStr trimmed "**" ||
  (decide (utf8Len trimmed > 100) && !endsWithStr trimmed "。" &&
    !endsWithStr trimmed "！" && !endsWithStr trimmed "？")

/-- Token contribution of one multimodal part, as the claim words it. -/
def claimContentTokens : MMContent → Nat
  | MMContent.text _ t => t.length / 4 + 1
  | MMContent.image _ _ => 0

/-- Token contribution of one message, as the claim words it: every text
content contributes its character count divided by four plus one, every
image contributes zero. -/
def claimMessageTokens : Message → Nat
  | Message.simple _ content => content.length / 4 + 1
  | Message.multiModal _ content => (content.map claimContentTokens).sum

/-- The claim total: the sum over all messages including the implicit
system preamble. -/
def claimTotal (history : List Message) : Nat :=
  claimMessageTokens systemPreamble + (history.map claimMessageTokens).sum

/-- A decoded event seen as a controller stream item. -/
def evItem (e : Event) : StreamItem := StreamItem.ok e.1 e.2

/-! ## Concrete fixtures used by witnesses and counterexamples -/

/-- A wire line carrying the delta text a. -/
def lineA : String := "data: \x7b\"choices\":[\x7b\"delta\":\x7b\"content\":\"a\"\x7d\x7d]\x7d\n"

/-- A wire line carrying the delta text b. -/
def lineB : String := "data: \x7b\"choices\":[\x7b\"delta\":\x7b\"content\":\"b\"\x7d\x7d]\x7d\n"

/-- A wire line carrying the delta text hi. -/
def lineHi : String := "data: \x7b\"choices\":[\x7b\"delta\":\x7b\"content\":\"hi\"\x7d\x7d]\x7d\n"

/-- The terminal wire line. -/
def doneLine : String := "data: [DONE]\n"

/-- A data line whose payload is not valid JSON, without its newline. -/
def badBody : String := "data: \x7bnot json"

/-- The payload of lineHi. -/
def payloadHi : String := "\x7b\"choices\":[\x7b\"delta\":\x7b\"content\":\"hi\"\x7d\x7d]\x7d"

/-- The parse of payloadHi. -/
def jsonHi : JsonVal :=
  JsonVal.obj [("choices", JsonVal.arr
    [JsonVal.obj [("delta", JsonVal.obj [("content", JsonVal.str "hi")])]])]

/-- choices[0] of jsonHi. -/
def choiceHi : JsonVal :=
  JsonVal.obj [("delta", JsonVal.obj [("content", JsonVal.str "hi")])]

/-- A history whose token estimate exceeds the input budget: every
message contributes at least one token, so 65537 messages suffice. -/
def bigHistory : List Message := List.replicate 65537 (Message.simple "user" "")

/-- A turn oracle whose first stream errors mid-stream after a delta
ending in an ideographic comma, and whose second stream completes. -/
def cexOracle : List CallResult :=
  [CallResult.streamed [StreamItem.ok "好，" none, StreamItem.err],
   CallResult.streamed [StreamItem.ok "结束。" (some "stop")]]

/-- A trimmed reply of 34 ideographic characters, 102 UTF-8 bytes. -/
def cexTrimmed : String := String.mk (List.replicate 34 '长')

/-! # Lemmas on line framing -/

theorem takeLine_eq_append {bs l r : List Nat} (h : takeLine bs = some (l, r)) :
    bs = l ++ r := by
  induction bs generalizing l r with
  | nil => simp [takeLine] at h
  | cons b bs ih =>
    by_cases hb : b = 10
    · subst hb
      simp [takeLine] at h
      obtain ⟨h1, h2⟩ := h
      simp [← h1, ← h2]
    · simp [takeLine, hb] at h
      cases htl : takeLine bs with
      | none => rw [htl] at h; simp at h
      | some lr =>
        obtain ⟨l2, r2⟩ := lr
        rw [htl] at h
        simp at h
        obtain ⟨h1, h2⟩ := h
        simp [← h1, ← h2, ih htl]

theorem takeLine_eq_none {bs : List Nat} : takeLine bs = none ↔ 10 ∉ bs := by
  induction bs with
  | nil => simp [takeLine]
  | cons b bs ih =>
    by_cases hb : b = 10
    · subst hb; simp [takeLine]
    · constructor
      · intro h
        simp [takeLine, hb] at h
        cases htl : takeLine bs with
        | none =>
          simp [List.mem_cons]
          exact ⟨fun e => hb e.symm, ih.mp htl⟩
        | some lr =>
          obtain ⟨l2, r2⟩ := lr
          rw [htl] at h
          simp at h
      · intro h
        simp [List.mem_cons] at h
        obtain ⟨h1, h2⟩ := h
        simp [takeLine, hb, ih.mpr h2]

theorem takeLine_shape {bs l r : List Nat} (h : takeLine bs = some (l, r)) :
    ∃ body, l = body ++ [10] ∧ 10 ∉ body := by
  induction bs generalizing l r with
  | nil => simp [takeLine] at h
  | cons b bs ih =>
    by_cases hb : b = 10
    · subst hb
      simp [takeLine] at h
      obtain ⟨h1, _⟩ := h
      exact ⟨[], by simp [← h1], by simp⟩
    · simp [takeLine, hb] at h
      cases htl : takeLine bs with
      | none => rw [htl] at h; simp at h
      | some lr =>
        obtain ⟨l2, r2⟩ := lr
        rw [htl] at h
        simp at h
        obtain ⟨h1, h2⟩ := h
        obtain ⟨body, hb1, hb2⟩ := ih htl
        refine ⟨b :: body, by simp [← h1, hb1], ?_⟩
        simp [List.mem_cons, hb2]
        exact fun e => hb e.symm

theorem takeLine_append {bs l r : List Nat} (h : takeLine bs = some (l, r))
    (xs : List Nat) : takeLine (bs ++ xs) = some (l, r ++ xs) := by
  induction bs generalizing l r with
  | nil => simp [takeLine] at h
  | cons b bs ih =>
    by_cases hb : b = 10
    · subst hb
      simp [takeLine] at h ⊢
      obtain ⟨h1, h2⟩ := h
      simp [← h1, ← h2]
    · simp [takeLine, hb] at h ⊢
      cases htl : takeLine bs with
      | none => rw [htl] at h; simp at h
      | some lr =>
        obtain ⟨l2, r2⟩ := lr
        rw [htl] at h
        simp at h
        obtain ⟨h1, h2⟩ := h
        rw [ih htl]
        simp [← h1, ← h2]

theorem takeLine_full_line {body : List Nat} (h : 10 ∉ body) :
    takeLine (body ++ [10]) = some (body ++ [10], []) := by
  induction body with
  | nil => simp [takeLine]
  | cons b body ih =>
    have hb : b ≠ 10 := fun e => h (e ▸ List.mem_cons_self b body)
    have htail : 10 ∉ body := fun hx => h (List.mem_cons_of_mem b hx)
    simp only [List.cons_append, takeLine, hb, if_false]
    rw [show body.append [10] = body ++ [10] from rfl, ih htail]

theorem takeLine_rest_length {bs l r : List Nat} (h : takeLine bs = some (l, r)) :
    r.length < bs.length := by
  obtain ⟨body, hb1, _⟩ := takeLine_shape h
  rw [takeLine_eq_append h, hb1]
  simp [List.length_append]
  omega

/-! # Unfolding lemmas for the fuelled scans -/

theorem scanAux_congr : ∀ f1 f2 bs, bs.length < f1 → bs.length < f2 →
    scanAux f1 bs = scanAux f2 bs := by
  intro f1
  induction f1 with
  | zero => intro f2 bs h1 h2; omega
  | succ f1 ih =>
    intro f2 bs h1 h2
    cases f2 with
    | zero => omega
    | succ f2 =>
      cases htl : takeLine bs with
      | none => simp [scanAux, htl]
      | some lr =>
        obtain ⟨l, r⟩ := lr
        have hr := takeLine_rest_length htl
        cases hhl : handleLine (lineStr l) with
        | skip =>
          simp [scanAux, htl, hhl]
          exact ih f2 r (by omega) (by omega)
        | emit t rr => simp [scanAux, htl, hhl]
        | halt => simp [scanAux, htl, hhl]

theorem scanBuffer_eq (bs : List Nat) : scanBuffer bs =
    match takeLine bs with
    | none => (none, bs, false)
    | some (l, r) =>
      match handleLine (lineStr l) with
      | LineOut.skip => scanBuffer r
      | LineOut.emit t rr => (some (t, rr), r, false)
      | LineOut.halt => (some ("", some "length"), r, true) := by
  unfold scanBuffer
  cases htl : takeLine bs with
  | none => simp [scanAux, htl]
  | some lr =>
    obtain ⟨l, r⟩ := lr
    have hr := takeLine_rest_length htl
    cases hhl : handleLine (lineStr l) with
    | skip =>
      simp [scanAux, htl, hhl]
      exact scanAux_congr bs.length (r.length + 1) r (by omega) (by omega)
    | emit t rr => simp [scanAux, htl, hhl]
    | halt => simp [scanAux, htl, hhl]

theorem linesAux_congr : ∀ f1 f2 bs, bs.length < f1 → bs.length < f2 →
    linesAux f1 bs = linesAux f2 bs := by
  intro f1
  induction f1 with
  | zero => intro f2 bs h1 h2; omega
  | succ f1 ih =>
    intro f2 bs h1 h2
    cases f2 with
    | zero => omega
    | succ f2 =>
      cases htl : takeLine bs with
      | none => simp [linesAux, htl]
      | some lr =>
        obtain ⟨l, r⟩ := lr
        have hr := takeLine_rest_length htl
        cases hhl : handleLine (lineStr l) with
        | skip =>
          simp [linesAux, htl, hhl]
          exact ih f2 r (by omega) (by omega)
        | emit t rr =>
          simp [linesAux, htl, hhl]
          rw [ih f2 r (by omega) (by omega)]
          exact ⟨rfl, rfl⟩
        | halt => simp [linesAux, htl, hhl]

theorem linesDecode_eq (bs : List Nat) : linesDecode bs =
    match takeLine bs with
    | none => ([], false)
    | some (l, r) =>
      match handleLine (lineStr l) with
      | LineOut.skip => linesDecode r
      | LineOut.emit t rr => ((t, rr) :: (linesDecode r).1, (linesDecode r).2)
      | LineOut.halt => ([("", some "length")], true) := by
  unfold linesDecode
  cases htl : takeLine bs with
  | none => simp [linesAux, htl]
  | some lr =>
    obtain ⟨l, r⟩ := lr
    have hr := takeLine_rest_length htl
    have hcongr : linesAux bs.length r = linesAux (r.length + 1) r :=
      linesAux_congr _ _ r (by omega) (by omega)
    cases hhl : handleLine (lineStr l) with
    | skip => simp [linesAux, htl, hhl, hcongr]
    | emit t rr => simp [linesAux, htl, hhl, hcongr]
    | halt => simp [linesAux, htl, hhl]

/-! # Newline counting -/

theorem count10_append (xs ys : List Nat) :
    count10 (xs ++ ys) = count10 xs + count10 ys := by
  simp [count10, List.count_append]

theorem count10_eq_zero {l : List Nat} : count10 l = 0 ↔ 10 ∉ l := by
  simp [count10, List.count_eq_zero]

theorem scan_line_facts {bs l r : List Nat} (h1 : count10 bs ≤ 1)
    (htl : takeLine bs = some (l, r)) : count10 r = 0 ∧ takeLine r = none := by
  obtain ⟨body, hb1, _⟩ := takeLine_shape htl
  have hbs := takeLine_eq_append htl
  have hcount : count10 bs = count10 l + count10 r := by
    rw [hbs, count10_append]
  have hl : 1 ≤ count10 l := by
    rw [hb1, count10_append]
    simp [count10, List.count_cons]
  have hr : count10 r = 0 := by omega
  exact ⟨hr, takeLine_eq_none.mpr (count10_eq_zero.mp hr)⟩

/-! # Relating one buffer scan to the line-by-line semantics

Under the assumption that the buffer holds at most one newline, one
scan processes at most one complete line, and its effect matches the
line-by-line decode of the buffer extended by any future bytes. -/

theorem scan_skip_bridge {bs : List Nat} (h1 : count10 bs ≤ 1) (b : List Nat) (f : Bool)
    (h : scanBuffer bs = (none, b, f)) :
    count10 b = 0 ∧ f = false ∧
      ∀ X, linesDecode (bs ++ X) = linesDecode (b ++ X) := by
  rw [scanBuffer_eq] at h
  cases htl : takeLine bs with
  | none =>
    simp only [htl] at h
    simp at h
    obtain ⟨hb, hf⟩ := h
    refine ⟨?_, hf, ?_⟩
    · rw [← hb]
      exact count10_eq_zero.mpr (takeLine_eq_none.mp htl)
    · intro X
      rw [← hb]
  | some lr =>
    obtain ⟨l, r⟩ := lr
    simp only [htl] at h
    obtain ⟨hr0, hrnone⟩ := scan_line_facts h1 htl
    cases hhl : handleLine (lineStr l) with
    | skip =>
      simp only [hhl] at h
      rw [scanBuffer_eq, hrnone] at h
      simp at h
      obtain ⟨hb, hf⟩ := h
      refine ⟨?_, hf, ?_⟩
      · rw [← hb]; exact hr0
      · intro X
        rw [← hb]
        rw [linesDecode_eq (bs ++ X)]
        simp only [takeLine_append htl X, hhl]
    | emit t rr => simp [hhl] at h
    | halt => simp [hhl] at h

theorem scan_emit_bridge {bs : List Nat} (h1 : count10 bs ≤ 1) (e : Event) (b : List Nat)
    (h : scanBuffer bs = (some e, b, false)) :
    count10 b = 0 ∧ ∀ X, linesDecode (bs ++ X) =
      (e :: (linesDecode (b ++ X)).1, (linesDecode (b ++ X)).2) := by
  rw [scanBuffer_eq] at h
  cases htl : takeLine bs with
  | none => simp only [htl] at h; simp at h
  | some lr =>
    obtain ⟨l, r⟩ := lr
    simp only [htl] at h
    obtain ⟨hr0, hrnone⟩ := scan_line_facts h1 htl
    cases hhl : handleLine (lineStr l) with
    | skip =>
      simp only [hhl] at h
      rw [scanBuffer_eq, hrnone] at h
      simp at h
    | emit t rr =>
      simp only [hhl] at h
      simp at h
      obtain ⟨he, hb⟩ := h
      refine ⟨by rw [← hb]; exact hr0, ?_⟩
      intro X
      rw [← hb, ← he]
      rw [linesDecode_eq (bs ++ X)]
      simp only [takeLine_append htl X, hhl]
    | halt =>
      simp only [hhl] at h
      simp at h

theorem scan_halt_bridge {bs : List Nat} (h1 : count10 bs ≤ 1) (e : Event) (b : List Nat)
    (h : scanBuffer bs = (some e, b, true)) :
    e = ("", some "length") ∧
      ∀ X, linesDecode (bs ++ X) = ([("", some "length")], true) := by
  rw [scanBuffer_eq] at h
  cases htl : takeLine bs with
  | none => simp only [htl] at h; simp at h
  | some lr =>
    obtain ⟨l, r⟩ := lr
    simp only [htl] at h
    obtain ⟨hr0, hrnone⟩ := scan_line_facts h1 htl
    cases hhl : handleLine (lineStr l) with
    | skip =>
      simp only [hhl] at h
      rw [scanBuffer_eq, hrnone] at h
      simp at h
    | emit t rr =>
      simp only [hhl] at h
      simp at h
    | halt =>
      simp only [hhl] at h
      simp at h
      obtain ⟨he, _⟩ := h
      refine ⟨he.symm, ?_⟩
      intro X
      rw [linesDecode_eq (bs ++ X)]
      simp only [takeLine_append htl X, hhl]

/-! # The chunked decoder against the line-by-line semantics -/

theorem decode_bridge : ∀ (cs : List (List Nat)) (buf : List Nat), count10 buf = 0 →
    (∀ c ∈ cs, count10 c ≤ 1) → decodeRun cs buf = linesDecode (buf ++ cs.flatten) := by
  intro cs
  induction cs with
  | nil =>
    intro buf h0 _
    have htl : takeLine buf = none := takeLine_eq_none.mpr (count10_eq_zero.mp h0)
    rw [linesDecode_eq]
    simp [decodeRun, htl]
  | cons c cs ih =>
    intro buf h0 hall
    have hbc : count10 (buf ++ c) ≤ 1 := by
      have hc := hall c (List.mem_cons_self c cs)
      rw [count10_append]
      omega
    have htail : ∀ x ∈ cs, count10 x ≤ 1 :=
      fun x hx => hall x (List.mem_cons_of_mem c hx)
    have hassoc : buf ++ (c :: cs).flatten = (buf ++ c) ++ cs.flatten := by
      simp [List.flatten_cons, List.append_assoc]
    rcases hscan : scanBuffer (buf ++ c) with ⟨o, b, f⟩
    cases o with
    | none =>
      obtain ⟨hb0, hf, hlines⟩ := scan_skip_bridge hbc b f hscan
      subst hf
      simp only [decodeRun, hscan]
      rw [ih b hb0 htail, hassoc, hlines cs.flatten]
    | some e =>
      cases f with
      | true =>
        obtain ⟨he, hlines⟩ := scan_halt_bridge hbc e b hscan
        simp only [decodeRun, hscan]
        rw [hassoc, hlines cs.flatten, he]
      | false =>
        obtain ⟨hb0, hlines⟩ := scan_emit_bridge hbc e b hscan
        simp only [decodeRun, hscan]
        rw [hassoc, hlines cs.flatten, ih b hb0 htail]

/-! # Facts about finished decoder runs -/

theorem scan_halt_event_aux : ∀ (n : Nat) (bs : List Nat), bs.length ≤ n →
    ∀ e b, scanBuffer bs = (some e, b, true) → e = ("", some "length") := by
  intro n
  induction n with
  | zero =>
    intro bs hlen e b h
    have hbs : bs = [] := List.length_eq_zero.mp (Nat.le_zero.mp hlen)
    subst hbs
    rw [scanBuffer_eq] at h
    simp [takeLine] at h
  | succ n ih =>
    intro bs hlen e b h
    rw [scanBuffer_eq] at h
    cases htl : takeLine bs with
    | none => simp only [htl] at h; simp at h
    | some lr =>
      obtain ⟨l, r⟩ := lr
      simp only [htl] at h
      cases hhl : handleLine (lineStr l) with
      | skip =>
        simp only [hhl] at h
        exact ih r (by have := takeLine_rest_length htl; omega) e b h
      | emit t rr => simp only [hhl] at h; simp at h
      | halt =>
        simp only [hhl] at h
        simp at h
        exact h.1.symm

theorem scan_halt_event {bs : List Nat} {e : Event} {b : List Nat}
    (h : scanBuffer bs = (some e, b, true)) : e = ("", some "length") :=
  scan_halt_event_aux bs.length bs le_rfl e b h

theorem decodeRun_finished : ∀ (cs : List (List Nat)) (buf : List Nat),
    (decodeRun cs buf).2 = true →
    ∃ pre, (decodeRun cs buf).1 = pre ++ [("", some "length")] := by
  intro cs
  induction cs with
  | nil => intro buf h; simp [decodeRun] at h
  | cons c cs ih =>
    intro buf h
    rcases hscan : scanBuffer (buf ++ c) with ⟨o, b, f⟩
    cases o with
    | none =>
      simp only [decodeRun, hscan] at h ⊢
      exact ih b h
    | some e =>
      cases f with
      | true =>
        simp only [decodeRun, hscan]
        exact ⟨[], by rw [scan_halt_event hscan]; rfl⟩
      | false =>
        simp only [decodeRun, hscan] at h ⊢
        obtain ⟨pre, hp⟩ := ih b h
        exact ⟨e :: pre, by rw [hp]; simp⟩

theorem decodeRun_append_finished : ∀ (cs : List (List Nat)) (buf : List Nat)
    (extra : List (List Nat)), (decodeRun cs buf).2 = true →
    decodeRun (cs ++ extra) buf = decodeRun cs buf := by
  intro cs
  induction cs with
  | nil => intro buf extra h; simp [decodeRun] at h
  | cons c cs ih =>
    intro buf extra h
    rcases hscan : scanBuffer (buf ++ c) with ⟨o, b, f⟩
    cases o with
    | none =>
      simp only [decodeRun, hscan] at h
      simp only [List.cons_append, decodeRun, hscan]
      exact ih b extra h
    | some e =>
      cases f with
      | true => simp only [List.cons_append, decodeRun, hscan]
      | false =>
        simp only [decodeRun, hscan] at h
        simp only [List.cons_append, decodeRun, hscan]
        rw [show cs.append extra = cs ++ extra from rfl, ih b extra h]

/-! # Stream consumption lemmas -/

theorem consume_append_err : ∀ (pre post : List StreamItem) (acc : String)
    (last : Option String), StreamItem.err ∉ pre →
    consumeStream (pre ++ StreamItem.err :: post) acc last =
      ((consumeStream pre acc last).1, (consumeStream pre acc last).2.1, true) := by
  intro pre
  induction pre with
  | nil => intro post acc last _; simp [consumeStream]
  | cons x pre ih =>
    intro post acc last hmem
    cases x with
    | ok s r =>
      simp only [List.cons_append, consumeStream]
      exact ih post (acc ++ s) _ (fun hx => hmem (List.mem_cons_of_mem _ hx))
    | err => exact absurd (List.mem_cons_self _ _) hmem

theorem consume_okmap_last : ∀ (es : List Event) (t : String) (r : String)
    (acc : String) (last : Option String),
    (consumeStream ((es.map evItem) ++ [StreamItem.ok t (some r)]) acc last).2.1 =
      some r := by
  intro es
  induction es with
  | nil => intro t r acc last; simp [consumeStream]
  | cons e es ih =>
    intro t r acc last
    simp only [List.map_cons, List.cons_append, evItem, consumeStream]
    exact ih t r _ _

/-! # The continuation counter -/

theorem innerLoop_count_le : ∀ (oracle : List CallResult) (history : List Message)
    (count : Nat), count ≤ MAX_AUTO_CONTINUE →
    (innerLoop oracle history count).2 ≤ MAX_AUTO_CONTINUE := by
  intro oracle
  induction oracle with
  | nil => intro history count h; simpa [innerLoop] using h
  | cons x rest ih =>
    intro history count h
    cases x with
    | failed => simpa [innerLoop] using h
    | streamed items =>
      simp only [innerLoop]
      split
      · next hcond =>
        apply ih
        have := (Bool.and_eq_true _ _).mp hcond
        have hlt := of_decide_eq_true this.2
        omega
      · simpa using h

/-! # The per-line dispatch against its spec wording -/

theorem extract_eq_claimed {j c0 choice : JsonVal}
    (h1 : jget j "choices" = some c0) (h2 : jidx c0 0 = some choice) :
    extractEvent j = claimedDispatch choice := by
  unfold extractEvent claimedDispatch
  rw [h1]
  simp only
  rw [h2]
  simp only
  cases hd : (jget choice "delta").bind (fun d => jget d "content") with
  | none =>
    simp only [hd]
    cases hm : (jget choice "message").bind (fun m => jget m "content") with
    | none => simp [hm]
    | some v => cases v <;> simp [hm, jasStr]
  | some v =>
    cases v <;> simp [hd, jasStr] <;>
      (cases hm : (jget choice "message").bind (fun m => jget m "content") with
        | none => simp [hm]
        | some w => cases w <;> simp [hm, jasStr])

/-! # Claim theorems -/

/-- C7: the token estimate contributes character_count / 4 + 1 for every
text content (characters, not bytes), 0 for every image content, sums
over all messages including the implicit system preamble, and the
summarization trigger fires exactly when this total strictly exceeds the
model maximum input budget of 65536. -/
theorem C7_token_estimate (model : String) (history : List Message) :
    get_model_max_input_tokens model = 65536 ∧
    summarizeTriggered model history = decide (claimTotal history > 65536) := by
  refine ⟨rfl, ?_⟩
  have hct : contentTokens = claimContentTokens := by
    funext x
    cases x <;> rfl
  have hmt : messageTokens = claimMessageTokens := by
    funext m
    cases m <;> simp [messageTokens, claimMessageTokens, hct, estimate_tokens]
  unfold summarizeTriggered totalTokens buildMessages claimTotal get_model_max_input_tokens
  rw [hmt]
  simp [List.sum_cons]

/-- C3 as stated fails on the code: the length clause of the heuristic
measures trimmed.len(), the UTF-8 byte length, not the character count.
A trimmed reply of 34 ideographic characters (102 bytes) that ends in no
connector and no terminator makes the code continue, while the claimed
character-count condition is false. -/
theorem C3_counterexample :
    shouldContinue none cexTrimmed = true ∧
    claimHeuristicChars (rustTrim cexTrimmed) = false := by
  constructor
  · decide
  · decide

/-- C3 amended: when no finish reason was captured, the continuation
decision equals the claimed trailing-character heuristic with the length
clause measured in UTF-8 bytes of the trimmed reply (ends with one of the
six connectors, or exceeds 100 bytes without ending in a sentence
terminator); in particular a reply ending in an ideographic comma yields
true and a short reply ending in an ideographic full stop yields false. -/
theorem C3_heuristic_bytes :
    (∀ reply : String,
      shouldContinue none reply = claimHeuristicBytes (rustTrim reply)) ∧
    shouldContinue none "你好，" = true ∧
    shouldContinue none "好了。" = false := by
  refine ⟨fun reply => rfl, by decide, by decide⟩

/-- C6: starting from zero, the number of automatic continuation
iterations of one user turn never exceeds MAX_AUTO_CONTINUE = 5, and at
the cap the controller stops after appending the assistant reply,
regardless of the finish reason or the heuristic. -/
theorem C6_continuation_cap :
    (∀ (oracle : List CallResult) (history : List Message),
      (innerLoop oracle history 0).2 ≤ MAX_AUTO_CONTINUE) ∧
    (∀ (items : List StreamItem) (rest : List CallResult) (history : List Message),
      innerLoop (CallResult.streamed items :: rest) history MAX_AUTO_CONTINUE =
        (history ++ [Message.simple "assistant" (consumeStream items "" none).1],
          MAX_AUTO_CONTINUE)) := by
  constructor
  · intro oracle history
    exact innerLoop_count_le oracle history 0 (Nat.zero_le _)
  · intro items rest history
    simp [innerLoop, MAX_AUTO_CONTINUE]

/-- C2 as stated fails on the code: a mid-stream error only breaks the
stream-consumption loop; the controller still appends the partial reply
and runs the continuation decision. On a first stream erroring after a
delta ending in an ideographic comma, the synthetic follow-up message is
appended and a second stream request is consumed in the same user turn. -/
theorem C2_counterexample :
    (innerLoop cexOracle [] 0).2 = 1 ∧
    continueMsg ∈ (innerLoop cexOracle [] 0).1 := by
  constructor
  · decide
  · decide

/-- C2 amended: a mid-stream error stops accumulation for that iteration
(items after the error are discarded) and the error is reported, but the
controller then proceeds exactly as if the stream had ended at the error:
it appends the partial reply and makes the normal continuation decision,
so an automatic follow-up request may still be issued before the next
user input. -/
theorem C2_stream_error_still_decides (pre post : List StreamItem)
    (rest : List CallResult) (history : List Message) (count : Nat)
    (hpre : StreamItem.err ∉ pre) :
    (consumeStream (pre ++ StreamItem.err :: post) "" none).2.2 = true ∧
    innerLoop (CallResult.streamed (pre ++ StreamItem.err :: post) :: rest)
        history count =
      innerLoop (CallResult.streamed pre :: rest) history count := by
  have hc := consume_append_err pre post "" none hpre
  constructor
  · rw [hc]
  · simp only [innerLoop, hc]

/-- C2 amended witness at a concrete mid-stream error. -/
theorem C2_witness :
    (consumeStream ([StreamItem.ok "好，" none] ++ StreamItem.err :: []) "" none).2.2 =
      true ∧
    innerLoop (CallResult.streamed
        ([StreamItem.ok "好，" none] ++ StreamItem.err :: []) :: []) [] 0 =
      innerLoop (CallResult.streamed [StreamItem.ok "好，" none] :: []) [] 0 :=
  C2_stream_error_still_decides [StreamItem.ok "好，" none] [] [] [] 0 (by decide)

/-- The trigger test unfolded to its comparison. -/
theorem summarizeTriggered_iff (model : String) (history : List Message) :
    summarizeTriggered model history = true ↔
      totalTokens (buildMessages history) > 65536 := by
  unfold summarizeTriggered get_model_max_input_tokens
  exact decide_eq_true_iff

/-- Estimate sum of the fixture history alone. -/
theorem bigHistory_tail_sum : (List.map messageTokens bigHistory).sum = 65537 := by
  rw [bigHistory, List.map_replicate, List.sum_replicate, smul_eq_mul,
    show messageTokens (Message.simple "user" "") = 1 from rfl, Nat.mul_one]

/-- Estimate sum with the system preamble prepended. -/
theorem bigHistory_sum_cons :
    (List.map messageTokens (systemPreamble :: bigHistory)).sum =
      messageTokens systemPreamble + (List.map messageTokens bigHistory).sum := by
  rw [List.map_cons, List.sum_cons]

/-- The fixture history exceeds the input budget. -/
theorem bigHistory_triggers : summarizeTriggered "deepseek-r1" bigHistory = true := by
  rw [summarizeTriggered_iff]
  show (List.map messageTokens (systemPreamble :: bigHistory)).sum > 65536
  rw [bigHistory_sum_cons, bigHistory_tail_sum]
  decide

/-- C1 as stated fails on the code: with the budget exceeded and the
summarization request failing, the conversation history is not left
unchanged; it is cleared and replaced by the single marker message with
an empty summary. -/
theorem C1_counterexample :
    (budgetPhase "deepseek-r1" bigHistory SummaryCall.requestError).1 ≠ bigHistory := by
  intro h
  rw [budgetPhase, bigHistory_triggers] at h
  simp at h
  have hlen := congrArg List.length h
  rw [bigHistory, List.length_replicate] at hlen
  simp at hlen

/-- C1 amended: when summarization is triggered, the history is replaced
by the single synthetic summary-marker message for every outcome of the
summarization call; in particular when the request fails, the error is
reported and the replacement message carries an empty summary, and this
replaced history (not the original) is what the subsequent chat request
uses. -/
theorem C1_summary_failure_replaces_history (model : String)
    (history : List Message) (call : SummaryCall)
    (htrig : summarizeTriggered model history = true) :
    (budgetPhase model history call).1 =
      [Message.simple "user" ("[历史摘要] " ++ summaryText call)] ∧
    budgetPhase model history SummaryCall.requestError =
      ([Message.simple "user" "[历史摘要] "], true) := by
  unfold budgetPhase
  rw [htrig]
  refine ⟨by simp, ?_⟩
  simp [summaryText, summaryErrored]

/-- C1 amended witness: a concrete over-budget history with a failed
summarization request. -/
theorem C1_witness :
    (budgetPhase "deepseek-r1" bigHistory SummaryCall.requestError).1 =
      [Message.simple "user" ("[历史摘要] " ++ summaryText SummaryCall.requestError)] ∧
    budgetPhase "deepseek-r1" bigHistory SummaryCall.requestError =
      ([Message.simple "user" "[历史摘要] "], true) :=
  C1_summary_failure_replaces_history "deepseek-r1" bigHistory SummaryCall.requestError
    bigHistory_triggers

/-- C4: when a run of the decoder reaches a line whose payload after the
marker is exactly [DONE] (its finished flag is set), the emitted event
list ends with the single terminal event ("", some "length"), and no
event follows it: chunks arriving later leave the output unchanged,
regardless of bytes remaining in the buffer. -/
theorem C4_done_terminal (cs : List (List Nat)) (buf : List Nat)
    (extra : List (List Nat)) (h : (decodeRun cs buf).2 = true) :
    (∃ pre, (decodeRun cs buf).1 = pre ++ [("", some "length")]) ∧
    decodeRun (cs ++ extra) buf = decodeRun cs buf :=
  ⟨decodeRun_finished cs buf h, decodeRun_append_finished cs buf extra h⟩

/-- C4 witness: the concrete terminal transcript followed by a stray
later chunk. -/
theorem C4_witness :
    (decodeRun [utf8Bytes doneLine] []).2 = true ∧
    ((∃ pre, (decodeRun [utf8Bytes doneLine] []).1 = pre ++ [("", some "length")]) ∧
      decodeRun ([utf8Bytes doneLine] ++ [utf8Bytes lineA]) [] =
        decodeRun [utf8Bytes doneLine] []) :=
  ⟨by decide, C4_done_terminal [utf8Bytes doneLine] [] [utf8Bytes lineA] (by decide)⟩

/-- C5 as stated fails on the code: the same two-line transcript split as
one chunk versus two chunks yields different event sequences. After
emitting the first event the decoder awaits the next chunk before
rescanning the buffer, so the second line of a single chunk is dropped
at end of stream. -/
theorem C5_counterexample :
    utf8Bytes lineA ++ utf8Bytes lineB = utf8Bytes (lineA ++ lineB) ∧
    decodeRun [utf8Bytes (lineA ++ lineB)] [] ≠
      decodeRun [utf8Bytes lineA, utf8Bytes lineB] [] := by
  constructor
  · decide
  · decide

/-- C5 amended: decoding is chunk-boundary invariant across the
splittings in which every chunk contains at most one newline byte — in
particular all splittings at every byte boundary into single bytes —
because each such run equals the line-by-line decode of the
concatenation. For splittings with several newlines in one chunk the
output can differ (see the counterexample). -/
theorem C5_chunk_invariance (s1 s2 : List (List Nat))
    (hjoin : s1.flatten = s2.flatten)
    (h1 : ∀ c ∈ s1, count10 c ≤ 1) (h2 : ∀ c ∈ s2, count10 c ≤ 1) :
    decodeRun s1 [] = decodeRun s2 [] := by
  rw [decode_bridge s1 [] rfl h1, decode_bridge s2 [] rfl h2, hjoin]

/-- C5 amended witness: two single-newline-per-chunk splittings of the
two-line transcript decode identically. -/
theorem C5_witness :
    decodeRun [utf8Bytes lineA, utf8Bytes lineB] [] =
      decodeRun [utf8Bytes lineA ++ (utf8Bytes lineB).take 3,
        (utf8Bytes lineB).drop 3] [] :=
  C5_chunk_invariance _ _ (by decide) (by decide) (by decide)

/-- C8: for a data line whose payload parses as JSON with choices[0]
present, line handling emits exactly what the claimed dispatch yields:
delta.content when it is a string (with the finish reason), else
message.content when it is a string, else a bare finish reason when one
is present, else no event. -/
theorem C8_json_dispatch (payload : List Char) (j choice : JsonVal)
    (hp : fromStrL payload = some j)
    (hc : (jget j "choices").bind (fun c => jidx c 0) = some choice) :
    handleLine (dataMarker ++ payload) = eventOut (claimedDispatch choice) := by
  obtain ⟨c0, hc0, hidx⟩ : ∃ c0, jget j "choices" = some c0 ∧ jidx c0 0 = some choice := by
    cases hg : jget j "choices" with
    | none => rw [hg] at hc; simp at hc
    | some c0 =>
      rw [hg] at hc
      simp at hc
      exact ⟨c0, rfl, hc⟩
  have hne : dataMarker ++ payload ≠ [] := by simp [dataMarker]
  have hstrip : stripMarker (dataMarker ++ payload) = some payload := by
    unfold stripMarker
    rw [show (6 : Nat) = dataMarker.length from rfl, List.take_left, List.drop_left]
    simp
  unfold handleLine
  rw [if_neg hne]
  simp only [hstrip]
  by_cases hdone : payload = doneTag
  · subst hdone
    have hno : fromStrL doneTag = none := rfl
    rw [hno] at hp
    exact Option.noConfusion hp
  · rw [if_neg hdone]
    simp only [hp]
    rw [extract_eq_claimed hc0 hidx]
    cases hcd : claimedDispatch choice with
    | none => rfl
    | some e =>
      obtain ⟨t, r⟩ := e
      rfl

/-- C8 witness: a concrete delta-content payload. -/
theorem C8_witness :
    fromStrL payloadHi.data = some jsonHi ∧
    (jget jsonHi "choices").bind (fun c => jidx c 0) = some choiceHi ∧
    handleLine (dataMarker ++ payloadHi.data) = eventOut (claimedDispatch choiceHi) :=
  ⟨rfl, rfl, C8_json_dispatch payloadHi.data jsonHi choiceHi rfl rfl⟩

/-- C9: a data line whose payload is not valid JSON yields no event and
does not terminate the stream: handling skips the line, and a decoder
run whose first chunk is exactly that line continues as the run over the
remaining chunks, so a subsequent valid line still produces its event. -/
theorem C9_malformed_skipped (body : List Nat) (payload : List Char)
    (cs : List (List Nat)) (hnl : 10 ∉ body)
    (hline : lineStr (body ++ [10]) = dataMarker ++ payload)
    (hdone : payload ≠ doneTag) (hjson : fromStrL payload = none) :
    handleLine (lineStr (body ++ [10])) = LineOut.skip ∧
    decodeRun ((body ++ [10]) :: cs) [] = decodeRun cs [] := by
  have hskip : handleLine (lineStr (body ++ [10])) = LineOut.skip := by
    rw [hline]
    unfold handleLine
    have hne : dataMarker ++ payload ≠ [] := by simp [dataMarker]
    rw [if_neg hne]
    have hstrip : stripMarker (dataMarker ++ payload) = some payload := by
      unfold stripMarker
      rw [show (6 : Nat) = dataMarker.length from rfl, List.take_left, List.drop_left]
      simp
    simp only [hstrip]
    rw [if_neg hdone]
    simp only [hjson]
  refine ⟨hskip, ?_⟩
  have hscan : scanBuffer ([] ++ (body ++ [10])) = (none, [], false) := by
    rw [scanBuffer_eq]
    simp only [List.nil_append, takeLine_full_line hnl, hskip]
    rw [scanBuffer_eq]
    simp [takeLine]
  simp only [decodeRun, hscan]

/-- C9 witness: the malformed line followed by a valid line. -/
theorem C9_witness :
    handleLine (lineStr (utf8Bytes badBody ++ [10])) = LineOut.skip ∧
    decodeRun ((utf8Bytes badBody ++ [10]) :: [utf8Bytes lineHi]) [] =
      decodeRun [utf8Bytes lineHi] [] :=
  C9_malformed_skipped (utf8Bytes badBody) ("\x7bnot json".data) [utf8Bytes lineHi]
    (by decide) (by decide) (by decide) rfl

/-- C10: a stream whose decode finishes via the data: [DONE] line leaves
"length" as the controller's last captured finish reason, so the
continuation decision is true and, below the cap, the controller appends
the synthetic follow-up message and issues a further stream request. -/
theorem C10_done_triggers_continuation (cs : List (List Nat))
    (rest : List CallResult) (h : List Message)
    (hfin : (decodeRun cs []).2 = true) :
    (consumeStream ((decodeRun cs []).1.map evItem) "" none).2.1 = some "length" ∧
    shouldContinue (consumeStream ((decodeRun cs []).1.map evItem) "" none).2.1
      (consumeStream ((decodeRun cs []).1.map evItem) "" none).1 = true ∧
    innerLoop (CallResult.streamed ((decodeRun cs []).1.map evItem) :: rest) h 0 =
      innerLoop rest
        (h ++ [Message.simple "assistant"
          (consumeStream ((decodeRun cs []).1.map evItem) "" none).1, continueMsg]) 1 := by
  obtain ⟨pre, hpre⟩ := decodeRun_finished cs [] hfin
  have hlast : (consumeStream ((decodeRun cs []).1.map evItem) "" none).2.1 =
      some "length" := by
    rw [hpre, List.map_append]
    exact consume_okmap_last pre "" "length" "" none
  have hsc : shouldContinue (consumeStream ((decodeRun cs []).1.map evItem) "" none).2.1
      (consumeStream ((decodeRun cs []).1.map evItem) "" none).1 = true := by
    rw [hlast]
    rfl
  refine ⟨hlast, hsc, ?_⟩
  simp only [innerLoop]
  rw [hsc]
  simp [MAX_AUTO_CONTINUE]

/-- C10 witness: the concrete [DONE]-terminated stream. -/
theorem C10_witness :
    (consumeStream ((decodeRun [utf8Bytes doneLine] []).1.map evItem) "" none).2.1 =
      some "length" ∧
    shouldContinue
      (consumeStream ((decodeRun [utf8Bytes doneLine] []).1.map evItem) "" none).2.1
      (consumeStream ((decodeRun [utf8Bytes doneLine] []).1.map evItem) "" none).1 =
      true ∧
    innerLoop (CallResult.streamed
        ((decodeRun [utf8Bytes doneLine] []).1.map evItem) :: []) [] 0 =
      innerLoop []
        ([] ++ [Message.simple "assistant"
          (consumeStream ((decodeRun [utf8Bytes doneLine] []).1.map evItem) "" none).1,
          continueMsg]) 1 :=
  C10_done_triggers_continuation [utf8Bytes doneLine] [] [] (by decide)

end DeepCli
